import Mathlib

/-
Verification of the SLAC-QR-DTR attendance and payroll core (src/main.go).

Timestamps, rates and hours are modelled by rationals; the Go zero time
value is modelled by 0 and the unit of time is the hour, so that the
duration outTime - inTime is directly the value produced by
outT.Time.Sub(inT.Time).Hours().  Fallible storage lookups are modelled
by an Except parameter.
-/

namespace DTR

/-- A row of the faculty table (src/main.go, initSchema). -/
structure Person where
  id : Nat
  name : String
  role : String
  ratePerHour : ℚ
  active : Bool
  token : String
deriving DecidableEq

/-- A row of the dtr table: an attendance event; outTime = none is an open
event (out_time IS NULL). -/
structure Event where
  id : Nat
  facultyId : Nat
  inTime : ℚ
  outTime : Option ℚ
deriving DecidableEq

/-- The scan result reported by handleScan: Clock IN or Clock OUT. -/
inductive Action where
  | IN
  | OUT
deriving DecidableEq

/-- The open events of one person: rows of dtr with faculty_id = fid and
out_time IS NULL (src/main.go line 307). -/
def openEvents (fid : Nat) (evs : List Event) : List Event :=
  evs.filter (fun e => e.facultyId == fid && e.outTime.isNone)

/-- ORDER BY in_time DESC LIMIT 1: the open event with the greatest
in_time. -/
def latestOpen : List Event → Option Event
  | [] => none
  | e :: es =>
    match latestOpen es with
    | none => some e
    | some a => if a.inTime ≥ e.inTime then some a else some e

/-- The lookup at src/main.go line 307: most recent open event of fid. -/
def findOpenEvent (fid : Nat) (evs : List Event) : Option Event :=
  latestOpen (openEvents fid evs)

/-- INSERT INTO dtr(faculty_id,in_time) VALUES (?,?): append a new open
event; ids are assigned by AUTOINCREMENT, modelled as length + 1. -/
def insertEvent (fid : Nat) (t : ℚ) (evs : List Event) : List Event :=
  evs ++ [⟨evs.length + 1, fid, t, none⟩]

/-- UPDATE dtr SET out_time=? WHERE id=?: close the event with id eid. -/
def closeEvent (eid : Nat) (t : ℚ) (evs : List Event) : List Event :=
  evs.map (fun e => if e.id == eid then { e with outTime := some t } else e)

/-- The attendance state machine of handleScan (src/main.go lines
304-321), with the lookup outcome abstracted: Except.error is a storage
failure other than ErrNoRows (the handler answers 500 and runs no Exec),
Except.ok none is ErrNoRows (clock IN), Except.ok (some e) is a found
open event (clock OUT).  The returned list is the dtr table after the
call. -/
def recordScanE (lookup : Except Unit (Option Event)) (now : ℚ) (fid : Nat)
    (evs : List Event) : Except Unit Action × List Event :=
  match lookup with
  | .error _ => (.error (), evs)
  | .ok none => (.ok .IN, insertEvent fid now evs)
  | .ok (some e) => (.ok .OUT, closeEvent e.id now evs)

/-- The attendance state machine of handleScan (src/main.go lines
304-321) when the lookup itself succeeds: no open event means clock IN
(insert), an open event means clock OUT (close it). -/
def recordScan (now : ℚ) (fid : Nat) (evs : List Event) :
    Action × List Event :=
  match findOpenEvent fid evs with
  | none => (.IN, insertEvent fid now evs)
  | some e => (.OUT, closeEvent e.id now evs)

/-- The dtr table after n sequential scans of person fid starting from the
empty table, the scan at step k happening at time (times k). -/
def logAfter (fid : Nat) (times : Nat → ℚ) : Nat → List Event
  | 0 => []
  | n + 1 => (recordScan (times n) fid (logAfter fid times n)).2

/-- The action reported by the scan at step n (0-based). -/
def actionAt (fid : Nat) (times : Nat → ℚ) (n : Nat) : Action :=
  (recordScan (times n) fid (logAfter fid times n)).1

theorem openEvents_append (fid : Nat) (evs : List Event) (e : Event) :
    openEvents fid (evs ++ [e]) =
      openEvents fid evs ++
        (if e.facultyId == fid && e.outTime.isNone then [e] else []) := by
  simp only [openEvents, List.filter_append]
  cases h : (e.facultyId == fid && e.outTime.isNone) <;> simp [List.filter, h]

theorem openEvents_insertEvent (fid : Nat) (t : ℚ) (evs : List Event) :
    openEvents fid (insertEvent fid t evs) =
      openEvents fid evs ++ [⟨evs.length + 1, fid, t, none⟩] := by
  rw [insertEvent, openEvents_append]
  simp

theorem openEvents_closeEvent (fid eid : Nat) (t : ℚ) (evs : List Event) :
    openEvents fid (closeEvent eid t evs) =
      (openEvents fid evs).filter (fun e => e.id != eid) := by
  have h1 : List.filter
      ((fun e : Event => e.facultyId == fid && e.outTime.isNone) ∘
        (fun e : Event => if e.id == eid then { e with outTime := some t } else e)) evs
      = List.filter
          (fun e : Event =>
            (e.id != eid) && (e.facultyId == fid && e.outTime.isNone)) evs := by
    apply List.filter_congr
    intro e _
    by_cases h : e.id = eid
    · simp [Function.comp, h]
    · simp [Function.comp, h]
  have h2 : ∀ e ∈ List.filter
      (fun e : Event => (e.id != eid) && (e.facultyId == fid && e.outTime.isNone)) evs,
      (if e.id == eid then { e with outTime := some t } else e) = e := by
    intro e he
    have hq := List.of_mem_filter he
    have hne : ¬ (e.id = eid) := by
      have := (Bool.and_eq_true _ _ |>.mp hq).1
      simpa using this
    simp [hne]
  simp only [openEvents, closeEvent]
  rw [List.filter_map, h1, List.map_congr_left h2, List.filter_filter]
  simp

/-- Invariant of the derived two-state machine: after an even number of
scans the person has no open event, after an odd number exactly one. -/
theorem openEvents_logAfter (fid : Nat) (times : Nat → ℚ) : ∀ n : Nat,
    (n % 2 = 0 → openEvents fid (logAfter fid times n) = []) ∧
    (n % 2 = 1 → ∃ e, openEvents fid (logAfter fid times n) = [e]) := by
  intro n
  induction n with
  | zero => exact ⟨fun _ => rfl, fun h => by omega⟩
  | succ n ih =>
    rcases Nat.mod_two_eq_zero_or_one n with hpar | hpar
    · have hopen : openEvents fid (logAfter fid times n) = [] := ih.1 hpar
      have hfind : findOpenEvent fid (logAfter fid times n) = none := by
        rw [findOpenEvent, hopen]; rfl
      constructor
      · intro h; omega
      · intro _
        refine ⟨⟨(logAfter fid times n).length + 1, fid, times n, none⟩, ?_⟩
        show openEvents fid (recordScan (times n) fid (logAfter fid times n)).2 = _
        rw [recordScan, hfind]
        simp only
        rw [openEvents_insertEvent, hopen]
        rfl
    · obtain ⟨e, hopen⟩ := ih.2 hpar
      have hfind : findOpenEvent fid (logAfter fid times n) = some e := by
        rw [findOpenEvent, hopen]; rfl
      constructor
      · intro _
        show openEvents fid (recordScan (times n) fid (logAfter fid times n)).2 = []
        rw [recordScan, hfind]
        simp only
        rw [openEvents_closeEvent, hopen]
        simp [List.filter]
      · intro h; omega

/-- C1: starting from an empty event log, sequential calls of the scan
handler for one person strictly alternate Clock IN, Clock OUT, IN, OUT,
with the very first call reporting IN. -/
theorem scan_alternation (fid : Nat) (times : Nat → ℚ) (n : Nat) :
    actionAt fid times n = if n % 2 = 0 then Action.IN else Action.OUT := by
  rcases Nat.mod_two_eq_zero_or_one n with hpar | hpar
  · have hopen : openEvents fid (logAfter fid times n) = [] :=
      (openEvents_logAfter fid times n).1 hpar
    have hfind : findOpenEvent fid (logAfter fid times n) = none := by
      rw [findOpenEvent, hopen]; rfl
    rw [actionAt, recordScan, hfind, hpar]
    rfl
  · obtain ⟨e, hopen⟩ := (openEvents_logAfter fid times n).2 hpar
    have hfind : findOpenEvent fid (logAfter fid times n) = some e := by
      rw [findOpenEvent, hopen]; rfl
    rw [actionAt, recordScan, hfind, hpar]
    rfl

/-- Floor of a rational, as Int.fdiv of numerator by denominator. -/
def ratFloor (q : ℚ) : ℤ :=
  Int.fdiv q.num (q.den : ℤ)

/-- The integer returned by math.Round: nearest integer, halves rounded
away from zero. -/
def goRoundZ (x : ℚ) : ℤ :=
  if 0 ≤ x then ratFloor (x + 1 / 2) else -(ratFloor (1 / 2 - x))

/-- math.Round as a function on rationals. -/
def goRound (x : ℚ) : ℚ :=
  ((goRoundZ x : ℤ) : ℚ)

/-- The events of person fid whose in_time lies in the inclusive range
(d.faculty_id = f.id AND d.in_time BETWEEN start AND end, src/main.go
lines 438-440 and 509-510). -/
def eventsInRange (start end_ : ℚ) (fid : Nat) (evs : List Event) : List Event :=
  evs.filter (fun e =>
    e.facultyId == fid && decide (start ≤ e.inTime) && decide (e.inTime ≤ end_))

/-- Hours one event adds in handlePayroll (src/main.go lines 463-468): 0
when the event is open, outTime - inTime when both times are present and
the difference is strictly positive, otherwise 0. -/
def reportDur (e : Event) : ℚ :=
  match e.outTime with
  | none => 0
  | some o => if o - e.inTime > 0 then o - e.inTime else 0

/-- The unrounded sum of qualifying durations of one person in
handlePayroll. -/
def rawHours (start end_ : ℚ) (fid : Nat) (evs : List Event) : ℚ :=
  ((eventsInRange start end_ fid evs).map reportDur).sum

/-- A row of the interactive payroll report. -/
structure PayrollRow where
  facultyId : Nat
  name : String
  role : String
  ratePerHour : ℚ
  totalHours : ℚ
  pay : ℚ
deriving DecidableEq

/-- The interactive payroll report: rows plus grand total. -/
structure PayrollReport where
  rows : List PayrollRow
  grandTotal : ℚ
deriving DecidableEq

/-- The row handlePayroll builds for one person (src/main.go lines
460-473): hours are the qualifying durations summed, rounded to the
nearest quarter by math.Round(h*4)/4, and pay is rounded hours times the
hourly rate. -/
def payrollRow (start end_ : ℚ) (evs : List Event) (f : Person) : PayrollRow :=
  let th := goRound (rawHours start end_ f.id evs * 4) / 4
  ⟨f.id, f.name, f.role, f.ratePerHour, th, th * f.ratePerHour⟩

/-- The aggregation of handlePayroll (src/main.go lines 435-476): the
LEFT JOIN keeps every faculty row, so every person yields exactly one
report row (the map m is keyed by the primary key f.id); the grand total
accumulates the per-row pay values. -/
def computeReport (start end_ : ℚ) (faculty : List Person) (evs : List Event) :
    PayrollReport :=
  let rows := faculty.map (payrollRow start end_ evs)
  ⟨rows, (rows.map PayrollRow.pay).sum⟩

/-- A record of the exported flat record set (one line of payroll.csv). -/
structure CsvRow where
  facultyId : Nat
  name : String
  role : String
  ratePerHour : ℚ
  hours : ℚ
  pay : ℚ
deriving DecidableEq

/-- Hours one joined row adds in handlePayrollCSV (src/main.go lines
529-531): outTime - inTime whenever both times are present, with no
positivity check. -/
def csvDur (e : Event) : ℚ :=
  match e.outTime with
  | none => 0
  | some o => o - e.inTime

/-- The aggregation of handlePayrollCSV (src/main.go lines 506-545): the
WHERE d.in_time BETWEEN clause discards every joined row whose event
columns are NULL, so a person with no event in range produces no record
at all; durations are summed without the positivity check and then
rounded the same way. -/
def computeCSV (start end_ : ℚ) (faculty : List Person) (evs : List Event) :
    List CsvRow :=
  faculty.filterMap (fun f =>
    let es := eventsInRange start end_ f.id evs
    if es.isEmpty then none
    else
      let h := goRound ((es.map csvDur).sum * 4) / 4
      some ⟨f.id, f.name, f.role, f.ratePerHour, h, h * f.ratePerHour⟩)

/-- The effective lower bound of the range (src/main.go line 418): the
error of time.Parse is discarded, so an absent or unparsable start is the
zero time value, modelled by 0. -/
def effStart (parsed : Option ℚ) : ℚ :=
  parsed.getD 0

/-- The effective upper bound of the range (src/main.go lines 419-422):
a failed parse yields the zero value, and end.IsZero() replaces it by
time.Now(). -/
def effEnd (parsed : Option ℚ) (now : ℚ) : ℚ :=
  match parsed with
  | none => now
  | some e => if e = 0 then now else e

/-- The two tables of data/dtr.db. -/
structure DB where
  faculty : List Person
  dtr : List Event
deriving DecidableEq

/-- SELECT id,name,role FROM faculty WHERE token=? (src/main.go line
298): the first faculty row with this token; the active flag is not
consulted. -/
def lookupByToken (tok : String) (fs : List Person) : Option Person :=
  fs.find? (fun p => p.token == tok)

/-- handleScan at the token level (src/main.go lines 293-321): resolve
the token, then run the attendance state machine; none models the 404
answer for an unknown token. -/
def handleScan (now : ℚ) (tok : String) (d : DB) :
    Option (Action × List Event) :=
  match lookupByToken tok d.faculty with
  | none => none
  | some p => some (recordScan now p.id d.dtr)

theorem goRound_zero : goRound 0 = 0 := by
  norm_num [goRound, goRoundZ, ratFloor, Int.fdiv]

/-- A person with no event in range gets a zero row. -/
theorem payrollRow_zero (start end_ : ℚ) (evs : List Event) (f : Person)
    (h : eventsInRange start end_ f.id evs = []) :
    (payrollRow start end_ evs f).totalHours = 0
    ∧ (payrollRow start end_ evs f).pay = 0 := by
  have hraw : rawHours start end_ f.id evs = 0 := by
    rw [rawHours, h]; rfl
  constructor
  · simp [payrollRow, hraw, goRound_zero]
  · simp [payrollRow, hraw, goRound_zero]

/-- With pairwise distinct ids, filtering a person list by one member id
yields exactly that member. -/
theorem filter_id_eq_singleton {l : List Person}
    (hnd : (l.map Person.id).Nodup) {f : Person} (hf : f ∈ l) :
    l.filter (fun q => q.id == f.id) = [f] := by
  induction l with
  | nil => cases hf
  | cons x xs ih =>
    rw [List.map_cons, List.nodup_cons] at hnd
    rcases List.mem_cons.mp hf with hfx | hmem
    · subst hfx
      rw [List.filter_cons]
      have hx : (f.id == f.id) = true := by simp
      rw [if_pos hx]
      have hnil : xs.filter (fun q => q.id == f.id) = [] := by
        apply List.filter_eq_nil_iff.mpr
        intro q hq hcontra
        apply hnd.1
        have : q.id = f.id := by simpa using hcontra
        rw [← this]
        exact List.mem_map_of_mem Person.id hq
      rw [hnil]
    · rw [List.filter_cons]
      have hx : ¬ ((x.id == f.id) = true) := by
        intro hcontra
        apply hnd.1
        have : x.id = f.id := by simpa using hcontra
        rw [this]
        exact List.mem_map_of_mem Person.id hmem
      rw [if_neg hx]
      exact ih hnd.2 hmem

/-- C4: every person handed to the aggregator appears exactly once as a
row of the interactive report, and a person with no event in the range
appears with zero hours and zero pay. -/
theorem report_completeness (start end_ : ℚ) (faculty : List Person)
    (evs : List Event) (f : Person)
    (hnd : (faculty.map Person.id).Nodup) (hf : f ∈ faculty) :
    (computeReport start end_ faculty evs).rows.filter
        (fun r => r.facultyId == f.id) = [payrollRow start end_ evs f]
    ∧ (eventsInRange start end_ f.id evs = [] →
        (payrollRow start end_ evs f).totalHours = 0
        ∧ (payrollRow start end_ evs f).pay = 0) := by
  constructor
  · show (faculty.map (payrollRow start end_ evs)).filter _ = _
    rw [List.filter_map]
    have hcong : List.filter
        ((fun r : PayrollRow => r.facultyId == f.id) ∘ payrollRow start end_ evs)
          faculty
        = List.filter (fun q : Person => q.id == f.id) faculty := by
      apply List.filter_congr
      intro q _
      rfl
    rw [hcong, filter_id_eq_singleton hnd hf]
    rfl
  · exact payrollRow_zero start end_ evs f

/-- Closed instance of report_completeness at a concrete store. -/
def pA : Person := ⟨1, "A", "Teacher", 100, true, "tokA"⟩

/-- A pathological event whose out time precedes its in time. -/
def evNeg : Event := ⟨1, 1, 2, some 1⟩

theorem report_completeness_witness :
    (([pA].map Person.id).Nodup ∧ pA ∈ [pA])
    ∧ ((computeReport 0 10 [pA] []).rows.filter
          (fun r => r.facultyId == pA.id) = [payrollRow 0 10 [] pA]
       ∧ (eventsInRange 0 10 pA.id [] = [] →
            (payrollRow 0 10 [] pA).totalHours = 0
            ∧ (payrollRow 0 10 [] pA).pay = 0)) :=
  ⟨⟨by simp, by simp⟩,
    report_completeness 0 10 [pA] [] pA (by simp) (by simp)⟩

/-- C5: every row of the interactive report carries hours equal to
math.Round of four times the raw duration sum, divided by four - hence a
multiple of one quarter - and pay equal to those rounded hours times the
hourly rate of the row. -/
theorem rounding_law (start end_ : ℚ) (faculty : List Person)
    (evs : List Event) (r : PayrollRow)
    (hr : r ∈ (computeReport start end_ faculty evs).rows) :
    (∃ f ∈ faculty, r = payrollRow start end_ evs f
        ∧ r.totalHours = goRound (rawHours start end_ f.id evs * 4) / 4)
    ∧ (∃ k : ℤ, r.totalHours = (k : ℚ) / 4)
    ∧ r.pay = r.totalHours * r.ratePerHour := by
  have hex : ∃ f ∈ faculty, payrollRow start end_ evs f = r := by
    simpa [computeReport] using hr
  obtain ⟨f, hf, hfr⟩ := hex
  subst hfr
  refine ⟨⟨f, hf, rfl, ?_⟩,
    ⟨goRoundZ (rawHours start end_ f.id evs * 4), ?_⟩, ?_⟩
  · rfl
  · rfl
  · rfl

theorem rounding_law_witness :
    payrollRow 0 10 [] pA ∈ (computeReport 0 10 [pA] []).rows
    ∧ ((∃ f ∈ [pA], payrollRow 0 10 [] pA = payrollRow 0 10 [] f
          ∧ (payrollRow 0 10 [] pA).totalHours
              = goRound (rawHours 0 10 f.id [] * 4) / 4)
       ∧ (∃ k : ℤ, (payrollRow 0 10 [] pA).totalHours = (k : ℚ) / 4)
       ∧ (payrollRow 0 10 [] pA).pay
           = (payrollRow 0 10 [] pA).totalHours
               * (payrollRow 0 10 [] pA).ratePerHour) := by
  have hmem : payrollRow 0 10 [] pA ∈ (computeReport 0 10 [pA] []).rows := by
    simp [computeReport]
  exact ⟨hmem, rounding_law 0 10 [pA] [] _ hmem⟩

/-- C6: the grand total is the plain unrounded sum of the per-row pay
values, each of which multiplies the already-rounded hours of that person
by the rate; no rounding is applied to the total itself. -/
theorem grand_total_consistency (start end_ : ℚ) (faculty : List Person)
    (evs : List Event) :
    (computeReport start end_ faculty evs).grandTotal
      = ((computeReport start end_ faculty evs).rows.map PayrollRow.pay).sum
    ∧ (computeReport start end_ faculty evs).grandTotal
      = (faculty.map (fun f =>
          goRound (rawHours start end_ f.id evs * 4) / 4 * f.ratePerHour)).sum := by
  constructor
  · rfl
  · show ((faculty.map (payrollRow start end_ evs)).map PayrollRow.pay).sum = _
    rw [List.map_map]
    rfl

/-- C7: an absent or unparsable start behaves as the zero timestamp and
so excludes no history, an absent end behaves as now, and an inverted
range is not rejected: it simply matches no event, so every person gets a
zero row. -/
theorem date_range_policy (now start2 end2 : ℚ) (faculty : List Person)
    (evs : List Event) (hlt : end2 < start2) :
    effStart none = 0
    ∧ effEnd none now = now
    ∧ (∀ e ∈ evs, 0 ≤ e.inTime → e.inTime ≤ now →
        e ∈ eventsInRange (effStart none) (effEnd none now) e.facultyId evs)
    ∧ ∀ r ∈ (computeReport start2 end2 faculty evs).rows,
        r.totalHours = 0 ∧ r.pay = 0 := by
  refine ⟨rfl, rfl, ?_, ?_⟩
  · intro e he h0 hn
    rw [eventsInRange]
    apply List.mem_filter.mpr
    refine ⟨he, ?_⟩
    simp [effStart, effEnd, h0, hn]
  · intro r hr
    have hex : ∃ f ∈ faculty, payrollRow start2 end2 evs f = r := by
      simpa [computeReport] using hr
    obtain ⟨f, hf, hfr⟩ := hex
    subst hfr
    apply payrollRow_zero
    rw [eventsInRange]
    apply List.filter_eq_nil_iff.mpr
    intro e he hcontra
    have hb : start2 ≤ e.inTime ∧ e.inTime ≤ end2 := by
      constructor
      · have := (Bool.and_eq_true _ _ |>.mp
          ((Bool.and_eq_true _ _ |>.mp hcontra).1)).2
        simpa using this
      · have := (Bool.and_eq_true _ _ |>.mp hcontra).2
        simpa using this
    have : start2 ≤ end2 := le_trans hb.1 hb.2
    exact absurd this (not_le.mpr hlt)

theorem date_range_policy_witness :
    (1 : ℚ) < 3
    ∧ (effStart none = 0
       ∧ effEnd none (5 : ℚ) = 5
       ∧ (∀ e ∈ [evNeg], 0 ≤ e.inTime → e.inTime ≤ 5 →
            e ∈ eventsInRange (effStart none) (effEnd none 5) e.facultyId [evNeg])
       ∧ ∀ r ∈ (computeReport 3 1 [pA] [evNeg]).rows,
            r.totalHours = 0 ∧ r.pay = 0) :=
  ⟨by norm_num, date_range_policy 5 3 1 [pA] [evNeg] (by norm_num)⟩

/-- C8: when the open-event lookup fails with a storage error, the scan
handler reports the error and the event log is returned unchanged; when
the lookup succeeds the branch taken is exactly the one of recordScan. -/
theorem storage_error_no_mutation (now : ℚ) (fid : Nat) (evs : List Event) :
    recordScanE (Except.error ()) now fid evs = (Except.error (), evs)
    ∧ recordScanE (Except.ok (findOpenEvent fid evs)) now fid evs
        = (Except.ok (recordScan now fid evs).1, (recordScan now fid evs).2) := by
  refine ⟨rfl, ?_⟩
  cases h : findOpenEvent fid evs <;> simp [recordScanE, recordScan, h]

/-- C10: the token lookup of the scan handler reads only id, name and
role with no condition on the active flag, so flipping any active flags
changes nothing about the recorded clock-in or clock-out, and a token
that resolves still records its event. -/
theorem scan_ignores_active (now : ℚ) (tok : String) (fs : List Person)
    (g : Person → Bool) (d : List Event) :
    handleScan now tok ⟨fs.map (fun p => { p with active := g p }), d⟩
        = handleScan now tok ⟨fs, d⟩
    ∧ ((lookupByToken tok fs).isSome →
        (handleScan now tok ⟨fs, d⟩).isSome) := by
  constructor
  · rw [handleScan, handleScan]
    have hl : lookupByToken tok (fs.map (fun p => { p with active := g p }))
        = (lookupByToken tok fs).map (fun p => { p with active := g p }) := by
      induction fs with
      | nil => rfl
      | cons x xs ih =>
        simp only [lookupByToken, List.map_cons, List.find?_cons] at ih ⊢
        cases hx : (x.token == tok) <;> simp [hx, ih]
    rw [hl]
    cases hres : lookupByToken tok fs <;> simp
  · intro hs
    rw [handleScan]
    cases hres : lookupByToken tok fs
    · rw [hres] at hs; simp at hs
    · simp

theorem scan_ignores_active_witness :
    (handleScan 1 "tokA" ⟨[pA].map (fun p => { p with active := false }), []⟩
        = handleScan 1 "tokA" ⟨[pA], []⟩)
    ∧ (handleScan 1 "tokA" ⟨[pA], []⟩).isSome :=
  ⟨(scan_ignores_active 1 "tokA" [pA] (fun _ => false) []).1,
    (scan_ignores_active 1 "tokA" [pA] (fun _ => false) []).2 (by
      simp [lookupByToken, pA])⟩

/-- C2: at one event clocked out before it was clocked in, the
interactive report adds zero hours as specified, but the CSV export adds
the negative duration, yielding minus one hour for the same database. -/
theorem csv_negative_hours_bug :
    ((computeReport 0 10 [pA] [evNeg]).rows.map PayrollRow.totalHours) = [0]
    ∧ ((computeCSV 0 10 [pA] [evNeg]).map CsvRow.hours) = [-1] := by
  constructor
  · norm_num [computeReport, payrollRow, rawHours, eventsInRange, reportDur,
      goRound, goRoundZ, ratFloor, pA, evNeg, Int.fdiv]
  · norm_num [computeCSV, eventsInRange, csvDur, goRound, goRoundZ, ratFloor,
      pA, evNeg, Int.fdiv, List.filterMap]

/-- C3: a person with no event in the range appears as a zero row of the
interactive report but produces no record at all in the CSV export, so
the two payroll paths disagree on the same database. -/
theorem payroll_paths_diverge :
    ((computeReport 0 10 [pA] []).rows.map PayrollRow.facultyId = [pA.id])
    ∧ computeCSV 0 10 [pA] [] = [] := by
  constructor
  · rfl
  · rfl

end DTR
